import Mathlib

/-
  Verification development for the Project-Scotch match engine.

  Shallow embedding of the relevant code of the repository:
    - src/Objects/Position.py   (Position, get_bitboard_integers, set_user_submitted)
    - src/Objects/Parser.py     (Parser.generate_id)
    - src/Objects/NewMatcher.py (Matcher.optimized_lcs, process_partition, find_best_lcs)
    - src/Objects/Matcher.py    (Matcher.find_match, find_sequence, handle_exact_match)
    - src/Objects/Utilities.py  (Utility.get_partition_metadata)

  Modelling conventions:
    - Python runtime errors (TypeError, KeyError, IndexError, ValueError) are modelled
      with Option / Except: none and Except.error mean the Python code raises.
    - Dynamically typed Python values that flow into arithmetic are modelled with the
      PyVal type below; adding values of incompatible types returns none, as the
      Python "+" raises TypeError there.
    - numpy uint64 arrays are modelled as List Nat whose entries are reduced mod 2^64
      exactly where the 64-bit hardware arithmetic wraps.
    - Matcher.py wraps whole reductions in dask delayed and only computes them, so
      its delayed/compute machinery is treated as a strict, transparent evaluator.
      In NewMatcher.py, by contrast, a raw Delayed flows into the plain builtin max
      and the >= test of find_best_lcs, whose truth test raises TypeError: the
      DelayedNat type below models that value flow.  Printing and progress bars are
      ignored.  The iteration order of a Python set of game ids is implementation
      defined; it is modelled by the first-occurrence order of the underlying rows.
    - Field names follow the source where the verification toolchain allows it; the
      source attribute move_notation is rendered here as move_san.
-/

set_option maxRecDepth 8000

/-- A dynamically typed Python value (the fragment used by this code). -/
inductive PyVal where
  | int  (n : Int)
  | str  (s : String)
  | bool (b : Bool)
  | list (l : List PyVal)

/-- Python binary "+" on PyVal: int/bool add as numbers, strings and lists
concatenate, every other combination raises TypeError (modelled as none). -/
def pyAdd : PyVal → PyVal → Option PyVal
  | PyVal.int a,  PyVal.int b  => some (PyVal.int (a + b))
  | PyVal.int a,  PyVal.bool b => some (PyVal.int (a + (cond b 1 0)))
  | PyVal.bool a, PyVal.int b  => some (PyVal.int ((cond a 1 0) + b))
  | PyVal.bool a, PyVal.bool b => some (PyVal.int ((cond a 1 0) + (cond b 1 0)))
  | PyVal.str a,  PyVal.str b  => some (PyVal.str (a ++ b))
  | PyVal.list a, PyVal.list b => some (PyVal.list (a ++ b))
  | _, _ => none

/-- Python sum(iterable): folds pyAdd over the list starting from the int 0. -/
def pySum (l : List PyVal) : Option PyVal :=
  l.foldlM pyAdd (PyVal.int 0)

/-- Python exceptions that the modelled paths can raise. -/
inductive PyErr where
  | typeError
  | valueError
  | keyError
  | attributeError

/-- Position.py: one ply of a game.  bitboards is the dict mapping the twelve
piece symbols to 64-bit occupancy masks, in dict insertion order.  The two
fields move_history and user_submitted are dynamically typed in the source
(a list and a bool initially), so they carry PyVal here. -/
structure Position where
  move_history   : PyVal
  user_submitted : PyVal
  white_turn     : Bool
  move_number    : Nat
  move_san       : String
  final_move     : Bool
  bitboards      : List (String × Nat)

/-- Position.__init__: the starting-position defaults from Position.py. -/
def initPosition : Position :=
  { move_history   := PyVal.list []
    user_submitted := PyVal.bool true
    white_turn     := true
    move_number    := 0
    move_san       := "Game Start"
    final_move     := false
    bitboards      :=
      [ ("♙", 0b0000000000000000000000000000000000000000000000001111111100000000)
      , ("♖", 0b0000000000000000000000000000000000000000000000000000000010000001)
      , ("♘", 0b0000000000000000000000000000000000000000000000000000000001000010)
      , ("♗", 0b0000000000000000000000000000000000000000000000000000000000100100)
      , ("♕", 0b0000000000000000000000000000000000000000000000000000000000010000)
      , ("♔", 0b0000000000000000000000000000000000000000000000000000000000001000)
      , ("♟︎", 0b0000000011111111000000000000000000000000000000000000000000000000)
      , ("♜", 0b1000000100000000000000000000000000000000000000000000000000000000)
      , ("♞", 0b0100001000000000000000000000000000000000000000000000000000000000)
      , ("♝", 0b0010010000000000000000000000000000000000000000000000000000000000)
      , ("♛", 0b0001000000000000000000000000000000000000000000000000000000000000)
      , ("♚", 0b0000100000000000000000000000000000000000000000000000000000000000) ] }

/-- Position.get_bitboard_integers: returns str(bitboard) for each value of the
bitboards dict, i.e. a list of decimal strings, not integers. -/
def get_bitboard_integers (p : Position) : List String :=
  p.bitboards.map (fun q => toString q.2)

/-- Position.get_user_submitted. -/
def get_user_submitted (p : Position) : PyVal :=
  p.user_submitted

/-- Position.get_move_history. -/
def get_move_history (p : Position) : PyVal :=
  p.move_history

/-- Position.set_user_submitted: the body of the source method is
self.move_history = user_submitted, so it assigns the move_history field. -/
def set_user_submitted (p : Position) (user_submitted : PyVal) : Position :=
  { p with move_history := user_submitted }

/-- Parser.generate_id: sum(j for i in positions for j in i.get_bitboard_integers())
+ len(positions).  The inner values are decimal strings, so the running sum starts
from the int 0 and immediately adds a string: pyAdd models the TypeError. -/
def generate_id (positions : List Position) : Option PyVal :=
  (pySum ((positions.map (fun p => (get_bitboard_integers p).map PyVal.str)).flatten)).bind
    (fun s => pyAdd s (PyVal.int (Int.ofNat positions.length)))

/-
  NewMatcher.py: Matcher.optimized_lcs.

  n, m    = len(short_seq), len(long_seq); w = 64
  bitsets = {x: np.zeros((m + w - 1) // w, dtype=np.uint64) for x in set(short_seq)}
  for i, x in enumerate(long_seq[1:]):
      bitsets[x][(i + 1) // w] |= 1 << ((i + 1) % w)      -- KeyError if x not in set(short_seq)
  dp = np.zeros((m + w - 1) // w, dtype=np.uint64)
  for x in short_seq[1:]:
      bitset      = bitsets[x]
      new_dp      = np.zeros_like(dp)
      new_dp[:-1] = dp[:-1] | ((dp[:-1] & bitset[:-1]) + (dp[1:] & bitset[1:])) << 1
      new_dp[-1]  = dp[-1] | (dp[-1] & bitset[-1]) << 1   -- IndexError if dp has no words
      dp          = new_dp
  lcs_length = max over i < 64 of sum over words j of popcount(dp[j] >> i)
-/

/-- Modulus of the 64-bit unsigned word arithmetic of the numpy arrays. -/
def M64 : Nat := 2 ^ 64

/-- Number of 64-bit words of a bit-vector over m positions: (m + w - 1) // w. -/
def wordsFor (m : Nat) : Nat := (m + 63) / 64

/-- bitsets[x][wi] |= 1 << bi on one word array. -/
def setBit (a : List Nat) (wi bi : Nat) : List Nat :=
  a.set wi ((a.getD wi 0) ||| (1 <<< bi))

/-- List of decimal digits of bin(n).count("1"): population count, written with an
explicit structural fuel so that it evaluates inside the kernel.  The fuel n is
enough because the argument at least halves every step. -/
def popCountAux : Nat → Nat → Nat
  | 0, _ => 0
  | fuel + 1, n => if n = 0 then 0 else n % 2 + popCountAux fuel (n / 2)

/-- Population count of a word. -/
def popCount (n : Nat) : Nat := popCountAux n n

/-- The loop that fills the per-symbol match vectors.  pairs is
enumerate(long_seq[1:]) with the index already shifted to i + 1.  The dict lookup
bitsets[x] raises KeyError when x is not a symbol of short_seq: none models that. -/
def fillBitsets (short_seq : List Nat) : List (Nat × Nat) → (Nat → List Nat) →
    Option (Nat → List Nat)
  | [], bs => some bs
  | (i1, x) :: rest, bs =>
    if short_seq.contains x then
      fillBitsets short_seq rest
        (fun y => if y = x then setBit (bs x) (i1 / 64) (i1 % 64) else bs y)
    else none

/-- One update of the dp array: the two vectorized numpy assignments.  All word
operations wrap mod 2^64 exactly where uint64 arithmetic wraps. -/
def dpUpdate (dp bs : List Nat) : List Nat :=
  (List.range dp.length).map (fun j =>
    if j + 1 < dp.length then
      (dp.getD j 0) |||
        ((((dp.getD j 0 &&& bs.getD j 0) + (dp.getD (j + 1) 0 &&& bs.getD (j + 1) 0)) % M64)
          <<< 1) % M64
    else
      (dp.getD j 0) ||| ((dp.getD j 0 &&& bs.getD j 0) <<< 1) % M64)

/-- The for x in short_seq[1:] loop.  The assignment new_dp[-1] raises IndexError
when the arrays have zero words, which none models. -/
def lcsLoop (bitsets : Nat → List Nat) : List Nat → List Nat → Option (List Nat)
  | [], dp => some dp
  | x :: rest, dp =>
    if dp.length = 0 then none
    else lcsLoop bitsets rest (dpUpdate dp (bitsets x))

/-- sum(bin(dp[j] >> i).count("1") for j in range(dp.size)). -/
def planeCount (dp : List Nat) (i : Nat) : Nat :=
  (dp.map (fun d => popCount (d >>> i))).sum

/-- max over the 64 bit planes of the per-plane population count. -/
def lcsCount (dp : List Nat) : Nat :=
  ((List.range 64).map (planeCount dp)).foldl max 0

/-- Matcher.optimized_lcs of NewMatcher.py. -/
def optimized_lcs (short_seq long_seq : List Nat) : Option Nat :=
  (fillBitsets short_seq (List.enumFrom 1 (long_seq.drop 1))
      (fun _ => List.replicate (wordsFor long_seq.length) 0)).bind
    (fun bitsets =>
      (lcsLoop bitsets (short_seq.drop 1)
          (List.replicate (wordsFor long_seq.length) 0)).bind
        (fun dp => some (lcsCount dp)))

/-
  NewMatcher.py: Matcher.process_partition and Matcher.find_best_lcs.

  __init__ assigns exactly self.parser, self.bitboard_sums and self.partitions.
  process_partition nevertheless reads self.user_bitboard_sums, an attribute that
  no statement of the repository ever assigns, so every call raises
  AttributeError.  In find_best_lcs the loop body builds
  lcs_length = dk.delayed(self.process_partition)(partition), a dask Delayed that
  is not evaluated yet, and then feeds it to the plain builtin
  max(best_lcs_length, lcs_length): max truth-tests the comparison of the
  Delayed, and bool() of a Delayed raises TypeError, on the first iteration of
  every non-empty corpus.  Only an empty corpus reaches
  dk.compute(best_lcs_length)[0], which computes the plain int 0.  The DelayedNat
  type models this value flow: a loop value is either a plain int or an
  unevaluated delayed call of process_partition.
-/

/-- A storage partition as consumed by NewMatcher.py: a dict with the key
total_ply and the signature sequence of its games. -/
structure Partition where
  total_ply : Nat
  sequences : List Nat

/-- The attributes that NewMatcher.Matcher.__init__ assigns: bitboard_sums (the
submitted query signatures from parser.get_positions()) and partitions. -/
structure NewMatcherState where
  bitboard_sums : List Nat
  partitions : List Partition

/-- The read of self.user_bitboard_sums in process_partition: __init__ assigns
only parser, bitboard_sums and partitions, and no other statement of the
repository assigns user_bitboard_sums, so the attribute lookup raises
AttributeError. -/
def user_bitboard_sums (_m : NewMatcherState) : Except PyErr (List Nat) :=
  Except.error PyErr.attributeError

/-- Matcher.process_partition: return self.optimized_lcs(self.user_bitboard_sums,
partition["sequences"]).  The attribute read raises before the engine runs; the
unreachable tail maps the raises of optimized_lcs (its none) to an error too. -/
def process_partition (m : NewMatcherState) (p : Partition) : Except PyErr Nat :=
  (user_bitboard_sums m).bind (fun q =>
    match optimized_lcs q p.sequences with
    | some r => Except.ok r
    | none => Except.error PyErr.keyError)

/-- Insert one partition into a descending-sorted list, after any partition with
the same key: the placement produced by the stable Python sorted(...) call. -/
def insPart (p : Partition) : List Partition → List Partition
  | [] => [p]
  | q :: qs => if q.total_ply ≤ p.total_ply then p :: q :: qs else q :: insPart p qs

/-- sorted(partitions, key=lambda p: p["total_ply"], reverse=True). -/
def sortPartDesc : List Partition → List Partition
  | [] => []
  | p :: ps => insPart p (sortPartDesc ps)

/-- A value held by best_lcs_length or lcs_length during the find_best_lcs loop:
a plain int, or the unevaluated Delayed of process_partition on one partition. -/
inductive DelayedNat where
  | int (n : Nat)
  | delayed (p : Partition)

/-- max(best_lcs_length, lcs_length): on two ints the builtin max; if either
operand is a Delayed, the rich comparison returns another Delayed and max
truth-tests it, which raises TypeError. -/
def pyMaxD : DelayedNat → DelayedNat → Except PyErr DelayedNat
  | DelayedNat.int a, DelayedNat.int b => Except.ok (DelayedNat.int (max a b))
  | _, _ => Except.error PyErr.typeError

/-- best_lcs_length >= partition["total_ply"]: defined on an int; truth-testing
the comparison of a Delayed raises TypeError. -/
def pyGeD : DelayedNat → Nat → Except PyErr Bool
  | DelayedNat.int a, t => Except.ok (decide (t ≤ a))
  | DelayedNat.delayed _, _ => Except.error PyErr.typeError

/-- The for partition in sorted_partitions loop of find_best_lcs:
lcs_length = dk.delayed(self.process_partition)(partition) builds a Delayed
without evaluating it; best = max(best, lcs_length); break once
best >= partition["total_ply"]. -/
def findBestGo : List Partition → DelayedNat → Except PyErr DelayedNat
  | [], best => Except.ok best
  | p :: rest, best =>
    (pyMaxD best (DelayedNat.delayed p)).bind (fun best2 =>
      (pyGeD best2 p.total_ply).bind (fun hit =>
        if hit then Except.ok best2 else findBestGo rest best2))

/-- dk.compute(best_lcs_length)[0]: a plain int computes to itself; computing a
Delayed evaluates the deferred process_partition call. -/
def dk_compute (m : NewMatcherState) : DelayedNat → Except PyErr Nat
  | DelayedNat.int n => Except.ok n
  | DelayedNat.delayed p => process_partition m p

/-- Matcher.find_best_lcs of NewMatcher.py. -/
def find_best_lcs (m : NewMatcherState) : Except PyErr Nat :=
  (findBestGo (sortPartDesc m.partitions) (DelayedNat.int 0)).bind (dk_compute m)

/-
  Matcher.py: Matcher.find_match.

  The storage DataFrame is modelled as a list of rows with the columns that
  find_match consumes: id, index (ply index inside the game), bitboards (the list
  of decimal bitboard strings of that ply) and pgn.  set(storage["id"]) is
  modelled as the ids in first-occurrence order of the rows; the concrete order
  of a CPython set of ints is implementation defined.
-/

/-- One storage row as consumed by Matcher.find_match. -/
structure SRow where
  rid  : Int
  ridx : Nat
  bbs  : List String
  pgn  : String

/-- The matcher state after find_match returns: the match triple set by set_match
(Parser represented by its PGN string; the indices slot is always None in this
code) together with the exact_match flag. -/
structure MatchRes where
  mparser : Option String
  mindices : Option (List (Nat × Nat))
  mlen : Nat
  exact_match : Bool

/-- Deduplication in first-occurrence order, with the already seen ids as
accumulator. -/
def dedupFirstAux : List Int → List Int → List Int
  | [], _ => []
  | i :: rest, seen =>
    if seen.contains i then dedupFirstAux rest seen
    else i :: dedupFirstAux rest (i :: seen)

/-- unique_ids = set(self.storage["id"]), in first-occurrence order. -/
def uniqueIds (rows : List SRow) : List Int :=
  dedupFirstAux (rows.map SRow.rid) []

/-- g = self.storage[self.storage["id"] == id]. -/
def gameRows (rows : List SRow) (i : Int) : List SRow :=
  rows.filter (fun r => r.rid == i)

/-- g["pgn"].compute().iloc[0]; g is never empty when this is reached. -/
def headPgn (g : List SRow) : String :=
  match g.head? with
  | some r => r.pgn
  | none => ""

/-- Length of the prefix of ks on which the predicate holds:
sum(1 for _ in itertools.takewhile(pred, ks)). -/
def countWhile (pred : Nat → Bool) : List Nat → Nat
  | [] => 0
  | k :: ks => if pred k then 1 + countWhile pred ks else 0

/-- find_sequence(g, i, j) of Matcher.find_match: filter g to the row with
index == j; if present, count how many consecutive query positions from i equal
that one row (the compared row never advances with k in the source). -/
def find_sequence (positions : List Position) (g : List SRow) (i j : Nat) : Nat :=
  match (g.filter (fun r => r.ridx == j)).head? with
  | none => 0
  | some r =>
    countWhile
      (fun k => get_bitboard_integers (positions.getD (i + k) initPosition) == r.bbs)
      (List.range (min (positions.length - i) (g.length - j)))

/-- delayed(max)((find_sequence(g, i, j) for i ... for j ...), default=0). -/
def gameBest (positions : List Position) (g : List SRow) : Nat :=
  (((List.range positions.length).map (fun i =>
      (List.range g.length).map (fun j => find_sequence positions g i j))).flatten).foldl
    max 0

/-- max(best_seq, key=lambda x: x[1]): first maximal element wins ties. -/
def pickBest (r : String × Nat) (rs : List (String × Nat)) : String × Nat :=
  rs.foldl (fun b q => if b.2 < q.2 then q else b) r

/-- Matcher.find_match of Matcher.py.  storage = none is the missing-Parquet
case; positions is the submitted game.  Exceptions surface as Except.error. -/
def find_match (storage : Option (List SRow)) (positions : List Position) :
    Except PyErr MatchRes :=
  match storage with
  | none => Except.ok ⟨none, none, 0, false⟩
  | some rows =>
    let ids := uniqueIds rows
    match generate_id positions with
    | none => Except.error PyErr.typeError
    | some gid =>
      let hit := match gid with
        | PyVal.int n => ids.contains n
        | _ => false
      if hit then
        Except.ok ⟨none, none, 0, true⟩
      else
        let results := ids.map (fun i =>
          let g := gameRows rows i
          (headPgn g, gameBest positions g))
        match results with
        | [] => Except.error PyErr.valueError
        | r :: rs =>
          let best := pickBest r rs
          Except.ok ⟨some best.1, none, best.2, false⟩

/-
  Utilities.py: Utility.get_partition_metadata.

  The filesystem state is the input: the list of directory entries of the Parquet
  storage directory, each with its files and their Parquet row counts, in listing
  order.  partition_col has its default value total_ply.  String scanning is done
  over the character lists of the names, mirroring startswith, split("=") and
  int(...) of the source; a non-numeric key raises (none).
-/

/-- A file of a partition directory with the num_rows of its Parquet metadata. -/
structure PFile where
  fname : String
  num_rows : Nat

/-- One directory entry of the storage directory. -/
structure DirEntry where
  dname : String
  files : List PFile

/-- The partition column prefix of the directory names. -/
def tpPref : String := "total_ply="

/-- The Parquet file name suffix. -/
def pqExt : String := ".parquet"

/-- Does the first list lead the second one. -/
def listPre : List Char → List Char → Bool
  | [], _ => true
  | _ :: _, [] => false
  | a :: as, b :: bs => a == b && listPre as bs

/-- d.startswith(pre). -/
def strStarts (s pre : String) : Bool := listPre pre.data s.data

/-- f.endswith(suf). -/
def strEnds (s suf : String) : Bool := listPre suf.data.reverse s.data.reverse

/-- s.split("="), accumulating the current fragment in reverse. -/
def splitEqAux : List Char → List Char → List (List Char)
  | [], cur => [cur.reverse]
  | c :: cs, cur =>
    if c == ('=' : Char) then cur.reverse :: splitEqAux cs []
    else splitEqAux cs (c :: cur)

/-- s.split("=") on the characters of a name. -/
def splitEq (l : List Char) : List (List Char) := splitEqAux l []

/-- int(s) on a digit string; none models the ValueError of a malformed name. -/
def parseNatChars (l : List Char) : Option Nat :=
  if l ≠ [] ∧ l.all Char.isDigit then
    some (l.foldl (fun acc c => acc * 10 + (c.toNat - 48)) 0)
  else none

/-- int(p.split("=")[1]) for a directory name p. -/
def parseKeyNum (p : String) : Option Nat :=
  parseNatChars ((splitEq p.data).getD 1 [])

/-- [d for d in os.listdir(pq_path) if d.startswith(partition_col + "=")]. -/
def partitionDirs (dirs : List DirEntry) : List String :=
  (dirs.map DirEntry.dname).filter (fun d => strStarts d tpPref)

/-- Decimal digit characters of n, with structural fuel. -/
def natToCharsAux : Nat → Nat → List Char
  | 0, _ => []
  | fuel + 1, n =>
    if n < 10 then [Nat.digitChar n]
    else natToCharsAux fuel (n / 10) ++ [Nat.digitChar (n % 10)]

/-- str(n) as a character list. -/
def natToChars (n : Nat) : List Char := natToCharsAux (n + 1) n

/-- The reconstructed directory name f"{partition_col}={partition_id}". -/
def canonName (k : Nat) : String := tpPref ++ String.mk (natToChars k)

/-- os.path.join + os.listdir of one partition: the entry with that name. -/
def dirNamed (dirs : List DirEntry) (nm : String) : Option DirEntry :=
  dirs.find? (fun d => d.dname == nm)

/-- Total rows of a partition: sum of num_rows over its .parquet files. -/
def partitionRows (d : DirEntry) : Nat :=
  ((d.files.filter (fun f => strEnds f.fname pqExt)).map PFile.num_rows).sum

/-- Insert one ascending key into a descending-sorted key list. -/
def insKey (k : Nat) : List Nat → List Nat
  | [] => [k]
  | q :: qs => if q ≤ k then k :: q :: qs else q :: insKey k qs

/-- sorted(keys, reverse=True). -/
def sortNatDesc : List Nat → List Nat
  | [] => []
  | k :: ks => insKey k (sortNatDesc ks)

/-- metadata[partition_id] = total_rows: Python dict assignment, which keeps the
position of an existing key and appends a new one. -/
def dictInsert (m : List (Nat × Nat)) (k v : Nat) : List (Nat × Nat) :=
  if m.any (fun pr => pr.1 == k) then
    m.map (fun pr => if pr.1 == k then (k, v) else pr)
  else m ++ [(k, v)]

/-- The metadata loop over the descending keys: look the partition directory up
again by its reconstructed name, sum its Parquet rows, store them in the dict.
A missing directory raises (none). -/
def buildMeta (dirs : List DirEntry) : List Nat → List (Nat × Nat) →
    Option (List (Nat × Nat))
  | [], acc => some acc
  | k :: ks, acc =>
    match dirNamed dirs (canonName k) with
    | none => none
    | some d => buildMeta dirs ks (dictInsert acc k (partitionRows d))

/-- Utility.get_partition_metadata of Utilities.py, as a function of the listed
storage directory.  The result dict is an association list in insertion order. -/
def get_partition_metadata (dirs : List DirEntry) : Option (List (Nat × Nat)) :=
  ((partitionDirs dirs).mapM parseKeyNum).bind
    (fun keys => buildMeta dirs (sortNatDesc keys) [])

/-
  Concrete inputs used by the claim theorems.
-/

/-- A query position whose bitboards dict holds one symbol with value v: enough
to drive find_sequence, which only compares get_bitboard_integers lists. -/
def symPos (v : Nat) : Position :=
  { initPosition with bitboards := [("♙", v)] }

/-- The query side of Scenario A: signatures 1 2 3 4 5. -/
def scenAQuery : List Position :=
  [symPos 1, symPos 2, symPos 3, symPos 4, symPos 5]

/-- The stored side of Scenario A: one game with ply signatures 1 2 9 4 5. -/
def scenARows : List SRow :=
  [ ⟨7, 0, [(toString (1 : Nat))], "S"⟩
  , ⟨7, 1, [(toString (2 : Nat))], "S"⟩
  , ⟨7, 2, [(toString (9 : Nat))], "S"⟩
  , ⟨7, 3, [(toString (4 : Nat))], "S"⟩
  , ⟨7, 4, [(toString (5 : Nat))], "S"⟩ ]

/-- Storage with one stored game of id 0 and two plies, for claim C4: the empty
query has identifier 0, so the identifier lookup succeeds. -/
def c4Rows : List SRow := [⟨0, 0, ["7"], "G"⟩, ⟨0, 1, ["8"], "G"⟩]

/-- Storage with one ordinary game, for the storage-present conjuncts. -/
def c6Rows : List SRow := [⟨5, 0, ["7"], "G"⟩]

/-- Storage with two tied games for claim C7, the game with the higher id first
in set-iteration order. -/
def c7Rows : List SRow := [⟨2, 0, ["7"], "B"⟩, ⟨1, 0, ["7"], "A"⟩]

/-- A storage listing for the C9 witness: two partitions and one foreign entry. -/
def c9Dirs : List DirEntry :=
  [ ⟨"total_ply=12", [⟨"part.0.parquet", 3⟩, ⟨"part.1.parquet", 4⟩, ⟨"meta.json", 9⟩]⟩
  , ⟨"misc", [⟨"x.parquet", 11⟩]⟩
  , ⟨"total_ply=5", [⟨"part.0.parquet", 2⟩]⟩ ]

/-
  Helper lemmas.
-/

theorem repGetD (k j : Nat) : (List.replicate k (0 : Nat)).getD j 0 = 0 := by
  induction k generalizing j with
  | zero => simp [List.replicate]
  | succ n ih =>
    cases j with
    | zero => simp [List.replicate]
    | succ j2 => simp [List.replicate, ih j2]

theorem dpUpdate_zero (k : Nat) (bs : List Nat) :
    dpUpdate (List.replicate k 0) bs = List.replicate k 0 := by
  apply List.eq_replicate_iff.mpr
  constructor
  · simp [dpUpdate]
  · intro b hb
    simp only [dpUpdate, List.mem_map, List.mem_range] at hb
    obtain ⟨j, hj, hbj⟩ := hb
    rw [← hbj]
    split <;> simp [repGetD]

theorem lcsLoop_eq_zero (bs : Nat → List Nat) :
    ∀ (xs : List Nat) (k : Nat) (dp : List Nat),
      lcsLoop bs xs (List.replicate k 0) = some dp → dp = List.replicate k 0 := by
  intro xs
  induction xs with
  | nil =>
    intro k dp h
    simpa [lcsLoop] using h.symm
  | cons x rest ih =>
    intro k dp h
    by_cases hk : (List.replicate k (0 : Nat)).length = 0
    · simp only [lcsLoop, hk, if_true] at h
      exact absurd h (by simp)
    · simp only [lcsLoop, hk, if_false, dpUpdate_zero] at h
      exact ih k dp h

theorem popCount_zero : popCount 0 = 0 := rfl

theorem planeCount_zero (k i : Nat) : planeCount (List.replicate k 0) i = 0 := by
  simp [planeCount, List.map_replicate, popCount_zero]

theorem foldl_max_zero : ∀ l : List Nat, (∀ x ∈ l, x = 0) → l.foldl max 0 = 0 := by
  intro l
  induction l with
  | nil => intro _; rfl
  | cons x t ih =>
    intro h
    have hx : x = 0 := h x (List.mem_cons_self x t)
    simp only [List.foldl_cons, hx, Nat.max_self]
    exact ih (fun y hy => h y (List.mem_cons_of_mem x hy))

theorem lcsCount_zero (k : Nat) : lcsCount (List.replicate k 0) = 0 := by
  unfold lcsCount
  apply foldl_max_zero
  intro x hx
  simp only [List.mem_map, List.mem_range] at hx
  obtain ⟨i, _, hix⟩ := hx
  rw [← hix]
  exact planeCount_zero k i

theorem optimized_lcs_eq_zero {s l : List Nat} {r : Nat}
    (h : optimized_lcs s l = some r) : r = 0 := by
  unfold optimized_lcs at h
  cases hf : fillBitsets s (List.enumFrom 1 (l.drop 1))
      (fun _ => List.replicate (wordsFor l.length) 0) with
  | none => rw [hf] at h; simp at h
  | some bs =>
    rw [hf] at h
    simp only [Option.some_bind] at h
    cases hl : lcsLoop bs (s.drop 1) (List.replicate (wordsFor l.length) 0) with
    | none => rw [hl] at h; simp at h
    | some dp =>
      rw [hl] at h
      simp only [Option.some_bind, Option.some.injEq] at h
      rw [← h, lcsLoop_eq_zero bs _ _ _ hl]
      exact lcsCount_zero _

theorem insPart_cons (p : Partition) : ∀ l : List Partition,
    ∃ q qs, insPart p l = q :: qs := by
  intro l
  cases l with
  | nil => exact ⟨p, [], rfl⟩
  | cons a t =>
    by_cases h : a.total_ply ≤ p.total_ply
    · exact ⟨p, a :: t, by simp [insPart, h]⟩
    · exact ⟨a, insPart p t, by simp [insPart, h]⟩

theorem sortPartDesc_cons (p : Partition) (ps : List Partition) :
    ∃ q qs, sortPartDesc (p :: ps) = q :: qs :=
  insPart_cons p (sortPartDesc ps)

theorem insKey_perm (k : Nat) : ∀ l : List Nat, (insKey k l).Perm (k :: l) := by
  intro l
  induction l with
  | nil => simp [insKey]
  | cons q qs ih =>
    by_cases hq : q ≤ k
    · simp [insKey, hq]
    · simp only [insKey, hq, if_false]
      exact List.Perm.trans (List.Perm.cons q ih) (List.Perm.swap k q qs)

theorem sortNatDesc_perm : ∀ l : List Nat, (sortNatDesc l).Perm l := by
  intro l
  induction l with
  | nil => simp [sortNatDesc]
  | cons k ks ih =>
    exact List.Perm.trans (insKey_perm k (sortNatDesc ks)) (List.Perm.cons k ih)

theorem mem_insKey {x k : Nat} : ∀ {l : List Nat}, x ∈ insKey k l → x = k ∨ x ∈ l := by
  intro l h
  have h2 : x ∈ k :: l := (insKey_perm k l).mem_iff.mp h
  exact List.mem_cons.mp h2

theorem insKey_sorted (k : Nat) : ∀ l : List Nat,
    l.Pairwise (· ≥ ·) → (insKey k l).Pairwise (· ≥ ·) := by
  intro l
  induction l with
  | nil => intro _; simp [insKey]
  | cons q qs ih =>
    intro h
    rw [List.pairwise_cons] at h
    obtain ⟨hq, hqs⟩ := h
    by_cases hqk : q ≤ k
    · simp only [insKey, hqk, if_true]
      rw [List.pairwise_cons]
      constructor
      · intro x hx
        rcases List.mem_cons.mp hx with h2 | h2
        · rw [h2]; exact hqk
        · exact le_trans (hq x h2) hqk
      · rw [List.pairwise_cons]
        exact ⟨hq, hqs⟩
    · simp only [insKey, hqk, if_false]
      rw [List.pairwise_cons]
      constructor
      · intro x hx
        rcases mem_insKey hx with h2 | h2
        · rw [h2]; exact Nat.le_of_not_le hqk
        · exact hq x h2
      · exact ih hqs

theorem sortNatDesc_sorted : ∀ l : List Nat, (sortNatDesc l).Pairwise (· ≥ ·) := by
  intro l
  induction l with
  | nil => simp [sortNatDesc]
  | cons k ks ih => exact insKey_sorted k (sortNatDesc ks) ih

theorem mapM_opt_length {α β : Type} (f : α → Option β) :
    ∀ (xs : List α) (ys : List β), xs.mapM f = some ys → ys.length = xs.length := by
  intro xs
  induction xs with
  | nil =>
    intro ys h
    simp only [List.mapM_nil, pure, Option.some.injEq] at h
    rw [← h]
    rfl
  | cons a as ih =>
    intro ys h
    rw [List.mapM_cons] at h
    cases hfa : f a with
    | none => rw [hfa] at h; simp at h
    | some b =>
      rw [hfa] at h
      cases hrest : List.mapM f as with
      | none => rw [hrest] at h; simp at h
      | some bs =>
        rw [hrest] at h
        simp at h
        subst h
        simp [ih bs hrest]

theorem buildMeta_spec (dirs : List DirEntry) :
    ∀ (keys : List Nat) (acc : List (Nat × Nat)),
      keys.Nodup →
      (∀ k ∈ keys, (dirNamed dirs (canonName k)).isSome) →
      (∀ k ∈ keys, ∀ pr ∈ acc, pr.1 ≠ k) →
      ∃ l2, buildMeta dirs keys acc = some (acc ++ l2) ∧
        l2.map Prod.fst = keys ∧
        ∀ pr ∈ l2, ∃ d, dirNamed dirs (canonName pr.1) = some d ∧
          pr.2 = partitionRows d := by
  intro keys
  induction keys with
  | nil =>
    intro acc _ _ _
    exact ⟨[], by simp [buildMeta], rfl, by simp⟩
  | cons k ks ih =>
    intro acc hnd hdir hfresh
    rw [List.nodup_cons] at hnd
    obtain ⟨hknot, hndks⟩ := hnd
    obtain ⟨d, hd⟩ := Option.isSome_iff_exists.mp
      (hdir k (List.mem_cons_self k ks))
    have hany : (acc.any (fun pr => pr.1 == k)) = false := by
      rw [List.any_eq_false]
      intro pr hpr
      simp only [beq_iff_eq]
      exact hfresh k (List.mem_cons_self k ks) pr hpr
    have hins : dictInsert acc k (partitionRows d) = acc ++ [(k, partitionRows d)] := by
      simp [dictInsert, hany]
    have hfresh2 : ∀ k2 ∈ ks, ∀ pr ∈ acc ++ [(k, partitionRows d)], pr.1 ≠ k2 := by
      intro k2 hk2 pr hpr
      rcases List.mem_append.mp hpr with hpr2 | hpr2
      · exact hfresh k2 (List.mem_cons_of_mem k hk2) pr hpr2
      · have hpk : pr = (k, partitionRows d) := by simpa using hpr2
        rw [hpk]
        intro hcontra
        have hkk2 : k = k2 := hcontra
        exact hknot (hkk2 ▸ hk2)
    obtain ⟨l2, hbm, hmap, hvals⟩ := ih (acc ++ [(k, partitionRows d)]) hndks
      (fun k2 hk2 => hdir k2 (List.mem_cons_of_mem k hk2)) hfresh2
    refine ⟨(k, partitionRows d) :: l2, ?_, ?_, ?_⟩
    · simp only [buildMeta, hd, hins]
      rw [hbm]
      simp
    · simp [hmap]
    · intro pr hpr
      rcases List.mem_cons.mp hpr with hpr2 | hpr2
      · exact ⟨d, by rw [hpr2]; exact hd, by rw [hpr2]⟩
      · exact hvals pr hpr2

/-
  Claim theorems.
-/

/-- C1: the claim says both LCS computations return 4 on short 1 2 3 4 5 versus
long 1 2 9 4 5.  Instead, optimized_lcs raises KeyError on that pair (the match
vectors exist only for the symbols of the short sequence but are indexed with
the symbols of the long one), and the find_sequence scan of Matcher.find_match,
which compares successive query positions against one fixed stored row, reaches
a maximum of 1 on the same pair, not 4. -/
theorem claim_C1_scenario_A :
    optimized_lcs [1, 2, 3, 4, 5] [1, 2, 9, 4, 5] = none ∧
    gameBest scenAQuery scenARows = 1 := by
  constructor
  · decide
  · decide

/-- C3: the claim says the pruned scan of find_best_lcs returns the same
best_length as an exhaustive scan over every corpus and query.  The scan cannot
return a best_length on any non-empty corpus at all: on the first loop
iteration max(best_lcs_length, lcs_length) truth-tests the comparison of the
dask Delayed built from process_partition, which raises TypeError; and the
deferred per-partition function itself would raise AttributeError on evaluation,
because it reads self.user_bitboard_sums, an attribute that is never assigned.
Only the empty corpus returns a value, 0, where the claimed equality is
vacuous. -/
theorem claim_C3_find_best_lcs_crash :
    (∀ (q : List Nat) (p : Partition) (rest : List Partition),
        find_best_lcs ⟨q, p :: rest⟩ = Except.error PyErr.typeError) ∧
    (∀ (m : NewMatcherState) (p : Partition),
        process_partition m p = Except.error PyErr.attributeError) ∧
    (∀ q : List Nat, find_best_lcs ⟨q, []⟩ = Except.ok 0) := by
  refine ⟨?_, ?_, ?_⟩
  · intro q p rest
    obtain ⟨q2, qs, hs⟩ := sortPartDesc_cons p rest
    have hdef : find_best_lcs ⟨q, p :: rest⟩
        = (findBestGo (sortPartDesc (p :: rest)) (DelayedNat.int 0)).bind
            (dk_compute ⟨q, p :: rest⟩) := rfl
    rw [hdef, hs]
    rfl
  · intro m p
    rfl
  · intro q
    rfl

/-- C4: the claim says an exact-identity query terminates as ExactMatch with
length equal to the full stored sequence length and a full-range match.  For a
real query (at least one position) find_match raises TypeError inside
generate_id before the identifier lookup; in the one reachable case, the empty
query whose identifier 0 is stored, the exact-match branch sets the match to
(None, None, 0): length 0 and no record, not the stored length 2. -/
theorem claim_C4_exact_match :
    find_match (some c4Rows) [initPosition] = Except.error PyErr.typeError ∧
    find_match (some c4Rows) [] = Except.ok ⟨none, none, 0, true⟩ ∧
    (gameRows c4Rows 0).length = 2 := by
  refine ⟨rfl, rfl, rfl⟩

/-- C5: the claim says disjoint-symbol inputs and an empty short sequence give
length 0 rather than failing.  The engine raises KeyError in both cases as soon
as the long sequence has a second element, because the match-vector dict only
has keys for the symbols of the short sequence. -/
theorem claim_C5_disjoint_crash :
    optimized_lcs [1] [2, 3] = none ∧
    optimized_lcs [] [7, 8] = none := by
  constructor
  · decide
  · decide

/-- C6: the claim says an absent corpus yields a NoCorpus outcome distinguishable
from the NoMatch outcome (length 0, no record) of a fruitless search.  The
storage-absent path returns exactly the match (None, None, 0) with the
exact_match flag down, which is itself the claimed NoMatch shape, and a search
with storage present raises TypeError before it can produce any NoMatch
outcome. -/
theorem claim_C6_no_corpus :
    find_match none [initPosition] = Except.ok ⟨none, none, 0, false⟩ ∧
    find_match (some c6Rows) [initPosition] = Except.error PyErr.typeError := by
  refine ⟨rfl, rfl⟩

/-- C7: the claim says repeated searches return the same tied game, selected
lowest-key-first.  The selection step takes the first maximal result in the
iteration order of the id set: with the id-2 game ahead of the id-1 game in
that order, the id-2 game (pgn B) wins the tie, not the lowest-key game; and
for any query with at least one position the search raises TypeError before
returning any Match Result at all. -/
theorem claim_C7_tie_break :
    uniqueIds c7Rows = [2, 1] ∧
    find_match (some c7Rows) [] = Except.ok ⟨some ("B"), none, 0, false⟩ ∧
    find_match (some c7Rows) [initPosition] = Except.error PyErr.typeError := by
  refine ⟨rfl, rfl, rfl⟩

/-- C8: the claim says generate_id returns the sum of the signatures plus the
number of positions.  get_bitboard_integers returns decimal strings, so the
running sum adds the int 0 to a string and Python raises TypeError: the code
returns nothing at all on every non-empty position list. -/
theorem claim_C8_generate_id :
    generate_id [initPosition] = none ∧
    generate_id [initPosition, initPosition] = none := by
  refine ⟨rfl, rfl⟩

/-- C9: for a storage whose partition directory names parse to pairwise distinct
keys and are recoverable from those keys, get_partition_metadata returns one
entry per partition directory, keyed in strictly descending order, whose value
is the total num_rows over the Parquet files of that directory. -/
theorem claim_C9_partition_metadata (dirs : List DirEntry) (ks : List Nat)
    (hparse : (partitionDirs dirs).mapM parseKeyNum = some ks)
    (hnd : ks.Nodup)
    (hdir : ∀ k ∈ ks, (dirNamed dirs (canonName k)).isSome) :
    ∃ l, get_partition_metadata dirs = some l ∧
      l.map Prod.fst = sortNatDesc ks ∧
      (l.map Prod.fst).Pairwise (· > ·) ∧
      l.length = (partitionDirs dirs).length ∧
      ∀ pr ∈ l, ∃ d, dirNamed dirs (canonName pr.1) = some d ∧
        pr.2 = partitionRows d := by
  have hperm := sortNatDesc_perm ks
  have hnd2 : (sortNatDesc ks).Nodup := hperm.nodup_iff.mpr hnd
  have hdir2 : ∀ k ∈ sortNatDesc ks, (dirNamed dirs (canonName k)).isSome :=
    fun k hk => hdir k (hperm.mem_iff.mp hk)
  obtain ⟨l2, hbm, hmap, hvals⟩ :=
    buildMeta_spec dirs (sortNatDesc ks) [] hnd2 hdir2 (by simp)
  have hstrict : (sortNatDesc ks).Pairwise (· > ·) := by
    have hs := sortNatDesc_sorted ks
    have hn : (sortNatDesc ks).Pairwise (· ≠ ·) := hnd2
    exact (hs.and hn).imp (fun h => lt_of_le_of_ne h.1 (Ne.symm h.2))
  refine ⟨l2, ?_, hmap, ?_, ?_, hvals⟩
  · unfold get_partition_metadata
    rw [hparse]
    simpa using hbm
  · rw [hmap]
    exact hstrict
  · have hlen : l2.length = ks.length := by
      have h1 : (l2.map Prod.fst).length = (sortNatDesc ks).length := by rw [hmap]
      simpa [hperm.length_eq] using h1
    exact hlen.trans (mapM_opt_length parseKeyNum _ _ hparse)

/-- C9 witness: the metadata theorem applied to a concrete storage listing with
partitions keyed 12 and 5 and one foreign directory. -/
theorem claim_C9_witness :
    ∃ l, get_partition_metadata c9Dirs = some l ∧
      l.map Prod.fst = sortNatDesc [12, 5] ∧
      (l.map Prod.fst).Pairwise (· > ·) ∧
      l.length = (partitionDirs c9Dirs).length ∧
      ∀ pr ∈ l, ∃ d, dirNamed c9Dirs (canonName pr.1) = some d ∧
        pr.2 = partitionRows d :=
  claim_C9_partition_metadata c9Dirs [12, 5] (by decide) (by decide) (by decide)

/-- C10: set_user_submitted leaves the user_submitted attribute unchanged and
instead overwrites move_history with its argument, as the claim states. -/
theorem claim_C10_set_user_submitted (p : Position) (b : PyVal) :
    get_user_submitted (set_user_submitted p b) = get_user_submitted p ∧
    get_move_history (set_user_submitted p b) = b := by
  exact ⟨rfl, rfl⟩

